import Mathlib

/-!
Verification of the scalable cuckoo filter implementation
(`src/bits.rs`, `src/buckets.rs`, `src/cuckoo_filter.rs`,
`src/scalable_cuckoo_filter.rs`).

The Rust code is shallowly embedded:
* `u64` values are natural numbers; where Rust's (release-mode) shift
  semantics matter, the shift amount is masked modulo 64 and results are
  reduced modulo `2^64` (`shl64`, `shr64`); `as u8` casts are `% 256`.
* `Vec<u8>` is `List Nat` whose elements are kept below 256.
* The external hasher (out-of-scope collaborator: any stable 64-bit
  hasher) is an abstract parameter `hashFp : Nat → Nat` used where the
  code writes `crate::hash(hasher, &fingerprint)`; public operations
  take the already-hashed item (`item_hash`), as the internals do.
* The external rng (out-of-scope collaborator) is an explicit stream of
  numbers consumed head-first; `rand::random::<bool>()` and
  `random_range(0..n)` reduce the head modulo 2 resp. `n`.
* `&mut self` methods become state-passing functions; `bool`-returning
  mutating methods return `Option` of the new state (`none` = `false`,
  state unchanged, exactly as in the source where the failing branch
  performs no write).
-/

/-- Release-mode `u64` left shift: the shift amount is masked modulo 64
and the result wraps modulo `2^64`. -/
def shl64 (a s : Nat) : Nat := (a <<< (s % 64)) % 2 ^ 64

/-- Release-mode `u64` right shift: the shift amount is masked modulo 64. -/
def shr64 (a s : Nat) : Nat := a >>> (s % 64)

/-- Total model of `usize::div_ceil`; the divisor is nonzero at every
reachable call site (`entries_per_bucket ≥ 1`, literal 8). -/
def divCeilT (a b : Nat) : Nat := (a + b - 1) / b

/-- Model of `usize::div_ceil` that makes the division-by-zero panic
observable, used where the builder can reach it with `entries_per_bucket = 0`. -/
def divCeilOpt (a b : Nat) : Option Nat := if b = 0 then none else some (divCeilT a b)

/-- Fuel-driven search for the least `k` with `n ≤ 2^k`; `ceilLog2 n`
is the exponent of `n.next_power_of_two()` in the source (Rust maps `0` to `1`,
i.e. exponent `0`). -/
def ceilLog2Go (n : Nat) : Nat → Nat → Nat
  | 0, k => k
  | fuel + 1, k => if n ≤ 2 ^ k then k else ceilLog2Go n fuel (k + 1)

/-- Exponent of the next power of two: `2 ^ ceilLog2 n = n.next_power_of_two()`. -/
def ceilLog2 (n : Nat) : Nat := ceilLog2Go n n 0

/-- `Buckets::required_number_of_buckets`: `number_of_buckets_hint.next_power_of_two()`. -/
def requiredNumberOfBuckets (hint : Nat) : Nat := 2 ^ ceilLog2 hint

/-- Staging-word accumulation of `Bits::get_uint`: byte `i` of the covered
range is OR-ed in at shift `8 * i` (`value |= u64::from(b) << (i * 8)`). -/
def orBytes : List Nat → Nat → Nat
  | [], _ => 0
  | b :: rest, i => shl64 b (8 * i) ||| orBytes rest (i + 1)

/-- `Bits::get_uint(position, size)` from `src/bits.rs`. -/
def Bits.get_uint (bits : List Nat) (position size : Nat) : Nat :=
  let start := position / 8
  let stop := divCeilT (position + size) 8
  let value := orBytes ((bits.drop start).take (stop - start)) 0
  let offset := position % 8
  let mask := shl64 1 size - 1
  (value >>> offset) &&& mask

/-- Byte-writing loop of `Bits::set_uint`: walks the bytes from the start
byte onward, splicing `value` between the preserved high and low parts. -/
def setUintGo : List Nat → Nat → Nat → Nat → List Nat
  | [], _, _, _ => []
  | b :: rest, size, value, offset =>
    let high := shl64 (shr64 b (size + offset)) (size + offset) % 256
    let middle := shl64 value offset % 256
    let low := b &&& ((1 <<< offset) - 1)
    let b2 := high ||| middle ||| low
    let dropBits := 8 - offset
    if size ≤ dropBits then b2 :: rest
    else b2 :: setUintGo rest (size - dropBits) (shr64 value dropBits) 0

/-- `Bits::set_uint(position, size, value)` from `src/bits.rs`. -/
def Bits.set_uint (bits : List Nat) (position size value : Nat) : List Nat :=
  bits.take (position / 8) ++ setUintGo (bits.drop (position / 8)) size value (position % 8)

/-- Bit `q` of the bit stream stored by a byte vector (bit `q % 8` of byte `q / 8`). -/
def streamBit (bits : List Nat) (q : Nat) : Bool := (bits.getD (q / 8) 0).testBit (q % 8)

/-- The `Buckets` struct from `src/buckets.rs`. -/
structure Buckets where
  fingerprint_bitwidth : Nat
  entries_per_bucket : Nat
  bucket_bitwidth : Nat
  bucket_index_bitwidth : Nat
  bits : List Nat
deriving Repr, DecidableEq

instance : Inhabited Buckets := ⟨⟨0, 0, 0, 0, []⟩⟩

/-- `Buckets::new`: the index bitwidth is `next_power_of_two(hint).trailing_zeros()`,
the backing store holds `bucket_bitwidth << bucket_index_bitwidth` bits,
and `Bits::new` allocates `size_hint.div_ceil(8)` zero bytes. -/
def Buckets.new (fingerprint_bitwidth entries_per_bucket number_of_buckets_hint : Nat) : Buckets :=
  let bucket_index_bitwidth := ceilLog2 number_of_buckets_hint
  let bucket_bitwidth := fingerprint_bitwidth * entries_per_bucket
  { fingerprint_bitwidth := fingerprint_bitwidth
    entries_per_bucket := entries_per_bucket
    bucket_bitwidth := bucket_bitwidth
    bucket_index_bitwidth := bucket_index_bitwidth
    bits := List.replicate (divCeilT (bucket_bitwidth <<< bucket_index_bitwidth) 8) 0 }

/-- `Buckets::len`: `1 << bucket_index_bitwidth`. -/
def Buckets.len (bk : Buckets) : Nat := 1 <<< bk.bucket_index_bitwidth

/-- `Buckets::index`: `hash & ((1 << bucket_index_bitwidth) - 1)`. -/
def Buckets.index (bk : Buckets) (hash : Nat) : Nat :=
  hash &&& ((1 <<< bk.bucket_index_bitwidth) - 1)

/-- `Buckets::fingerprint`: `hash >> (64 - fingerprint_bitwidth)`. -/
def Buckets.fingerprint (bk : Buckets) (hash : Nat) : Nat :=
  hash >>> (64 - bk.fingerprint_bitwidth)

/-- `Buckets::get_fingerprint`. -/
def Buckets.get_fingerprint (bk : Buckets) (bucket_index entry_index : Nat) : Nat :=
  Bits.get_uint bk.bits
    (bk.bucket_bitwidth * bucket_index + bk.fingerprint_bitwidth * entry_index)
    bk.fingerprint_bitwidth

/-- `Buckets::set_fingerprint`. -/
def Buckets.set_fingerprint (bk : Buckets) (bucket_index entry_index fingerprint : Nat) : Buckets :=
  let offset := bk.bucket_bitwidth * bucket_index + bk.fingerprint_bitwidth * entry_index
  { bk with bits := Bits.set_uint bk.bits offset bk.fingerprint_bitwidth fingerprint }

/-- `Buckets::contains`: scan the bucket for a slot equal to `fingerprint`
(early-return loop over `0..entries_per_bucket`). -/
def Buckets.contains (bk : Buckets) (bucket_index fingerprint : Nat) : Bool :=
  (List.range bk.entries_per_bucket).any fun i =>
    bk.get_fingerprint bucket_index i == fingerprint

/-- `Buckets::try_insert`: write `fingerprint` into the first zero slot;
`none` models the `false` return (no write happens on that path). -/
def Buckets.try_insert (bk : Buckets) (bucket_index fingerprint : Nat) : Option Buckets :=
  match (List.range bk.entries_per_bucket).find? (fun i =>
      bk.get_fingerprint bucket_index i == 0) with
  | some i => some (bk.set_fingerprint bucket_index i fingerprint)
  | none => none

/-- `Buckets::remove_fingerprint`: zero the first slot equal to `fingerprint`;
`none` models the `false` return. -/
def Buckets.remove_fingerprint (bk : Buckets) (bucket_index fingerprint : Nat) : Option Buckets :=
  match (List.range bk.entries_per_bucket).find? (fun i =>
      bk.get_fingerprint bucket_index i == fingerprint) with
  | some i => some (bk.set_fingerprint bucket_index i 0)
  | none => none

/-- External rng collaborator: a deterministic stream of draws, consumed
head-first (an empty stream yields 0 and stays empty). -/
structure Rng where
  seq : List Nat
deriving Repr, DecidableEq

/-- One draw from the rng stream. -/
def Rng.next : Rng → Nat × Rng
  | ⟨[]⟩ => (0, ⟨[]⟩)
  | ⟨a :: rest⟩ => (a, ⟨rest⟩)

/-- `rng.random::<bool>()`. -/
def rngBool (r : Rng) : Bool × Rng :=
  let p := r.next
  (p.1 % 2 == 1, p.2)

/-- `rng.random_range(0..n)`. -/
def rngRange (r : Rng) (n : Nat) : Nat × Rng :=
  let p := r.next
  (p.1 % n, p.2)

/-- `Buckets::random_swap`: replace a uniformly chosen slot, returning the
displaced fingerprint (the source's `debug_assert`s are release no-ops). -/
def Buckets.random_swap (bk : Buckets) (rng : Rng) (bucket_index fingerprint : Nat) :
    Nat × Buckets × Rng :=
  let p := rngRange rng bk.entries_per_bucket
  let f := bk.get_fingerprint bucket_index p.1
  (f, bk.set_fingerprint bucket_index p.1 fingerprint, p.2)

/-- Loop body of `Iter::next` from `src/buckets.rs`, driven to completion:
from state `(bucket_i, entry_i)` produce the remaining items. The fuel is
one unit per loop iteration; `Buckets.iterList` supplies enough for the
whole traversal, so the `0` case is never taken from the initial state. -/
def iterGo (bk : Buckets) : Nat → Nat → Nat → List (Nat × Nat)
  | 0, _, _ => []
  | fuel + 1, bucket_i, entry_i =>
    if bk.len ≤ bucket_i then []
    else if bk.entries_per_bucket ≤ entry_i then iterGo bk fuel (bucket_i + 1) 0
    else
      let f := bk.get_fingerprint bucket_i entry_i
      if f = 0 then iterGo bk fuel (bucket_i + 1) 0
      else (bucket_i, f) :: iterGo bk fuel bucket_i (entry_i + 1)

/-- `Buckets::iter` collected into a list (the iterator starts at
`bucket_i = 0`, `entry_i = 0`). -/
def Buckets.iterList (bk : Buckets) : List (Nat × Nat) :=
  iterGo bk ((bk.len + 1) * (bk.entries_per_bucket + 1)) 0 0

/-- Specification-side description of one bucket's yielded entries: the
maximal run of non-zero slots at the start of the bucket. -/
def bucketRow (bk : Buckets) (bucket_i : Nat) : List Nat :=
  ((List.range bk.entries_per_bucket).map fun e => bk.get_fingerprint bucket_i e).takeWhile
    fun f => f != 0

/-- Specification-side description of the iterator output from bucket
`bucket_i` onward. -/
def iterFrom (bk : Buckets) (bucket_i : Nat) : List (Nat × Nat) :=
  (List.range' bucket_i (bk.len - bucket_i)).flatMap fun b =>
    (bucketRow bk b).map fun f => (b, f)

/-- Lexicographic order test used by `(u64, usize)` in the sorted
`ExceptionalItems` vector. -/
def pairLe (x y : Nat × Nat) : Bool := x.1 < y.1 || (x.1 == y.1 && x.2 ≤ y.2)

/-- `ExceptionalItems::contains`: `binary_search(&(fingerprint, min(i0, i1)))`
on the sorted vector succeeds exactly on membership. -/
def eiContains (items : List (Nat × Nat)) (i0 i1 fingerprint : Nat) : Bool :=
  items.contains (fingerprint, min i0 i1)

/-- `ExceptionalItems::insert`: insert at the position found by
`binary_search`, keeping the vector sorted. -/
def eiInsert : List (Nat × Nat) → Nat × Nat → List (Nat × Nat)
  | [], x => [x]
  | y :: rest, x => if pairLe x y then x :: y :: rest else y :: eiInsert rest x

/-- `ExceptionalItems::remove`: erase the element found by `binary_search`
(`none` models the `false` return). -/
def eiRemoveFirst : List (Nat × Nat) → Nat × Nat → Option (List (Nat × Nat))
  | [], _ => none
  | y :: rest, x =>
    if y = x then some rest else (eiRemoveFirst rest x).map fun l => y :: l

/-- `ExceptionalItems::contains_kicked_out_entries`: the last (largest)
element has a non-zero fingerprint. -/
def eiContainsKickedOut (items : List (Nat × Nat)) : Bool :=
  match items.getLast? with
  | some p => p.1 != 0
  | none => false

/-- The `CuckooFilter` struct from `src/cuckoo_filter.rs`. -/
structure CuckooFilter where
  buckets : Buckets
  max_kicks : Nat
  exceptional_items : List (Nat × Nat)
  item_count : Nat
deriving Repr, DecidableEq

instance : Inhabited CuckooFilter := ⟨⟨default, 0, [], 0⟩⟩

/-- `CuckooFilter::new` (total version; the `div_ceil` divisor
`entries_per_bucket` is nonzero whenever construction got past the
builder, see `CuckooFilter.newOpt`). -/
def CuckooFilter.newT (fingerprint_bitwidth entries_per_bucket number_of_items_hint max_kicks :
    Nat) : CuckooFilter :=
  let number_of_buckets_hint := divCeilT number_of_items_hint entries_per_bucket
  { buckets := Buckets.new fingerprint_bitwidth entries_per_bucket number_of_buckets_hint
    max_kicks := max_kicks
    exceptional_items := []
    item_count := 0 }

/-- `CuckooFilter::new` with the `number_of_items_hint.div_ceil(entries_per_bucket)`
division-by-zero panic made observable as `none`. -/
def CuckooFilter.newOpt (fingerprint_bitwidth entries_per_bucket number_of_items_hint max_kicks :
    Nat) : Option CuckooFilter :=
  (divCeilOpt number_of_items_hint entries_per_bucket).map fun _ =>
    CuckooFilter.newT fingerprint_bitwidth entries_per_bucket number_of_items_hint max_kicks

/-- `CuckooFilter::len`. -/
def CuckooFilter.lenCF (cf : CuckooFilter) : Nat := cf.item_count

/-- `CuckooFilter::is_nearly_full`. -/
def CuckooFilter.is_nearly_full (cf : CuckooFilter) : Bool :=
  eiContainsKickedOut cf.exceptional_items

/-- `CuckooFilter::contains_fingerprint`. -/
def CuckooFilter.contains_fingerprint (cf : CuckooFilter) (i0 i1 fingerprint : Nat) : Bool :=
  if eiContains cf.exceptional_items i0 i1 fingerprint then true
  else if fingerprint == 0 then false
  else cf.buckets.contains i0 fingerprint || cf.buckets.contains i1 fingerprint

/-- `CuckooFilter::contains` (`hashFp` models `crate::hash(hasher, &fingerprint)`). -/
def CuckooFilter.containsCF (hashFp : Nat → Nat) (cf : CuckooFilter) (item_hash : Nat) : Bool :=
  let fingerprint := cf.buckets.fingerprint item_hash
  let i0 := cf.buckets.index item_hash
  let i1 := cf.buckets.index (i0 ^^^ hashFp fingerprint)
  cf.contains_fingerprint i0 i1 fingerprint

/-- Eviction loop of `CuckooFilter::insert_fingerprint`
(`for _ in 0..max_kicks { ... }`), recursing on the remaining kicks.
Returns the final buckets and rng, plus `some (prev_i, i, f)` when the loop
exhausted and the last fingerprint must be parked in the exceptional list. -/
def kickLoop (hashFp : Nat → Nat) : Nat → Buckets → Rng → Nat → Nat → Nat →
    Buckets × Rng × Option (Nat × Nat × Nat)
  | 0, bk, rng, i, prev_i, fingerprint => (bk, rng, some (prev_i, i, fingerprint))
  | kicks + 1, bk, rng, i, _, fingerprint =>
    let q := bk.random_swap rng i fingerprint
    let f := q.1
    let bk := q.2.1
    let rng := q.2.2
    let prev := i
    let i2 := bk.index (i ^^^ hashFp f)
    match bk.try_insert i2 f with
    | some bk2 => (bk2, rng, none)
    | none => kickLoop hashFp kicks bk rng i2 prev f

/-- `CuckooFilter::insert_fingerprint` from `src/cuckoo_filter.rs`. -/
def insertFingerprint (hashFp : Nat → Nat) (cf : CuckooFilter) (rng : Rng) (i0 fingerprint : Nat) :
    CuckooFilter × Rng :=
  let i1 := cf.buckets.index (i0 ^^^ hashFp fingerprint)
  let cf := { cf with item_count := cf.item_count + 1 }
  if fingerprint = 0 then
    ({ cf with exceptional_items := eiInsert cf.exceptional_items (0, min i0 i1) }, rng)
  else
    match cf.buckets.try_insert i0 fingerprint with
    | some bk => ({ cf with buckets := bk }, rng)
    | none =>
      match cf.buckets.try_insert i1 fingerprint with
      | some bk => ({ cf with buckets := bk }, rng)
      | none =>
        let pb := rngBool rng
        let i := if pb.1 then i0 else i1
        let r := kickLoop hashFp cf.max_kicks cf.buckets pb.2 i i fingerprint
        match r.2.2 with
        | none => ({ cf with buckets := r.1 }, r.2.1)
        | some t =>
          let items := eiInsert cf.exceptional_items (t.2.2, min t.1 t.2.1)
          ({ cf with buckets := r.1, exceptional_items := items }, r.2.1)

/-- `CuckooFilter::insert`. -/
def CuckooFilter.insertCF (hashFp : Nat → Nat) (cf : CuckooFilter) (rng : Rng) (item_hash : Nat) :
    CuckooFilter × Rng :=
  let fingerprint := cf.buckets.fingerprint item_hash
  let i0 := cf.buckets.index item_hash
  insertFingerprint hashFp cf rng i0 fingerprint

/-- `CuckooFilter::remove` from `src/cuckoo_filter.rs` (first match wins:
exceptional items, then bucket `i0`, then bucket `i1`; `item_count` is
decremented on success — `Nat` subtraction stands in for the `usize`
decrement, whose underflow at `item_count = 0` is noted where relevant). -/
def CuckooFilter.removeCF (hashFp : Nat → Nat) (cf : CuckooFilter) (item_hash : Nat) :
    Bool × CuckooFilter :=
  let fingerprint := cf.buckets.fingerprint item_hash
  let i0 := cf.buckets.index item_hash
  let i1 := cf.buckets.index (i0 ^^^ hashFp fingerprint)
  let step : Bool × CuckooFilter :=
    if eiContains cf.exceptional_items i0 i1 fingerprint then
      match eiRemoveFirst cf.exceptional_items (fingerprint, min i0 i1) with
      | some items => (true, { cf with exceptional_items := items })
      | none => (false, cf)
    else if cf.buckets.contains i0 fingerprint then
      match cf.buckets.remove_fingerprint i0 fingerprint with
      | some bk => (true, { cf with buckets := bk })
      | none => (false, cf)
    else if cf.buckets.contains i1 fingerprint then
      match cf.buckets.remove_fingerprint i1 fingerprint with
      | some bk => (true, { cf with buckets := bk })
      | none => (false, cf)
    else (false, cf)
  if step.1 then (true, { step.2 with item_count := step.2.item_count - 1 })
  else (false, step.2)

/-- Replay loop of `CuckooFilter::shrink_to_fit`: every entry yielded by the
old buckets' iterator is re-inserted into the shrunk filter at
`shrunk_filter.buckets.index(i)` with the same fingerprint. -/
def shrinkFold (hashFp : Nat → Nat) : List (Nat × Nat) → CuckooFilter → Rng → CuckooFilter × Rng
  | [], cf, rng => (cf, rng)
  | (i, fingerprint) :: rest, cf, rng =>
    let shrunk_i := cf.buckets.index i
    let p := insertFingerprint hashFp cf rng shrunk_i fingerprint
    shrinkFold hashFp rest p.1 p.2

/-- `CuckooFilter::shrink_to_fit` from `src/cuckoo_filter.rs`
(`ExceptionalItems::shrink_to_fit` only releases `Vec` capacity, a no-op here). -/
def CuckooFilter.shrink_to_fit (hashFp : Nat → Nat) (cf : CuckooFilter) (rng : Rng) :
    CuckooFilter × Rng :=
  let entries_per_bucket := cf.buckets.entries_per_bucket
  let shrunkLen := requiredNumberOfBuckets (divCeilT cf.item_count entries_per_bucket)
  if shrunkLen < cf.buckets.len then
    shrinkFold hashFp cf.buckets.iterList
      (CuckooFilter.newT cf.buckets.fingerprint_bitwidth entries_per_bucket cf.item_count
        cf.max_kicks)
      rng
  else (cf, rng)

/-- The `ScalableCuckooFilter` struct (the facade): its filter list, the
builder configuration and the owned rng. The hasher and the `f64`
false-positive probability live outside the embedding: item hashing is
external, and the only use of the probability — the floating-point
fingerprint-width formula in `grow()` — is abstracted as the parameter
`fpWidth : Nat → Nat` mapping the filter generation to its width. -/
structure SCF where
  filters : List CuckooFilter
  initial_capacity : Nat
  entries_per_bucket : Nat
  max_kicks : Nat
  rng : Rng
deriving Repr, DecidableEq

/-- `ScalableCuckooFilter::grow` (total version, used by `insert` where
`entries_per_bucket ≥ 1` is guaranteed by construction): push a fresh
`CuckooFilter` with capacity `initial_capacity * 2^k`. -/
def SCF.grow (fpWidth : Nat → Nat) (s : SCF) : SCF :=
  let k := s.filters.length
  let capacity := s.initial_capacity * 2 ^ k
  let filter := CuckooFilter.newT (fpWidth k) s.entries_per_bucket capacity s.max_kicks
  { s with filters := s.filters ++ [filter] }

/-- `ScalableCuckooFilterBuilder::finish`: start with no filters and `grow()`
once; the division-by-zero panic of `CuckooFilter::new` at
`entries_per_bucket = 0` surfaces as `none`. -/
def scfFinishOpt (fpWidth : Nat → Nat) (initial_capacity entries_per_bucket max_kicks : Nat)
    (rng : Rng) : Option SCF :=
  let s : SCF :=
    { filters := [], initial_capacity := initial_capacity,
      entries_per_bucket := entries_per_bucket, max_kicks := max_kicks, rng := rng }
  (CuckooFilter.newOpt (fpWidth 0) entries_per_bucket (initial_capacity * 2 ^ 0) max_kicks).map
    fun filter => { s with filters := [filter] }

/-- `ScalableCuckooFilter::len`. -/
def scfLen (s : SCF) : Nat := (s.filters.map fun f => f.lenCF).sum

/-- `ScalableCuckooFilter::contains`. -/
def scfContains (hashFp : Nat → Nat) (s : SCF) (item_hash : Nat) : Bool :=
  s.filters.any fun f => CuckooFilter.containsCF hashFp f item_hash

/-- `ScalableCuckooFilter::insert`: insert into the last filter, then grow
if that filter reports nearly-full. -/
def scfInsert (fpWidth hashFp : Nat → Nat) (s : SCF) (item_hash : Nat) : SCF :=
  let last := s.filters.length - 1
  let cf := s.filters.getD last default
  let p := CuckooFilter.insertCF hashFp cf s.rng item_hash
  let s := { s with filters := s.filters.set last p.1, rng := p.2 }
  if p.1.is_nearly_full then SCF.grow fpWidth s else s

/-- Walk of `ScalableCuckooFilter::remove` over `&mut self.filters`:
stop at the first filter reporting a successful removal. -/
def scfRemoveGo (hashFp : Nat → Nat) (item_hash : Nat) :
    List CuckooFilter → Bool × List CuckooFilter
  | [] => (false, [])
  | cf :: rest =>
    let p := CuckooFilter.removeCF hashFp cf item_hash
    if p.1 then (true, p.2 :: rest)
    else
      let q := scfRemoveGo hashFp item_hash rest
      (q.1, p.2 :: q.2)

/-- `ScalableCuckooFilter::remove`. -/
def scfRemove (hashFp : Nat → Nat) (s : SCF) (item_hash : Nat) : Bool × SCF :=
  let p := scfRemoveGo hashFp item_hash s.filters
  (p.1, { s with filters := p.2 })

/-- Walk of `ScalableCuckooFilter::shrink_to_fit` over `&mut self.filters`,
threading the rng. -/
def scfShrinkGo (hashFp : Nat → Nat) : List CuckooFilter → Rng → List CuckooFilter × Rng
  | [], rng => ([], rng)
  | cf :: rest, rng =>
    let p := CuckooFilter.shrink_to_fit hashFp cf rng
    let q := scfShrinkGo hashFp rest p.2
    (p.1 :: q.1, q.2)

/-- `ScalableCuckooFilter::shrink_to_fit`. -/
def scfShrink (hashFp : Nat → Nat) (s : SCF) : SCF :=
  let p := scfShrinkGo hashFp s.filters s.rng
  { s with filters := p.1, rng := p.2 }

/-- Specification-side suffix of a bucket's yielded run, starting at `entry_i`. -/
def bucketRowFrom (bk : Buckets) (bucket_i entry_i : Nat) : List Nat :=
  ((List.range' entry_i (bk.entries_per_bucket - entry_i)).map fun e =>
    bk.get_fingerprint bucket_i e).takeWhile fun f => f != 0

/-- Instantiation of the external fingerprint re-hash used by the concrete
scenarios (any stable function satisfies the hashing contract). -/
def hashZero : Nat → Nat := fun _ => 0

/-- Constant instantiation of the abstract fingerprint-width schedule. -/
def fpWidth4 : Nat → Nat := fun _ => 4

/-- Item hash with fingerprint 5 and primary bucket index 1 in a 4-bucket,
4-bit-fingerprint filter. -/
def hashA : Nat := 5 * 2 ^ 60 + 1

/-- Item hash with fingerprint 9 and primary bucket index 1 in a 4-bucket,
4-bit-fingerprint filter. -/
def hashB : Nat := 9 * 2 ^ 60 + 1

/-- Buckets with 4-bit fingerprints, 2 entries per bucket, 1 bucket. -/
def c3bk0 : Buckets := Buckets.new 4 2 1

/-- After `try_insert(0, 1)`. -/
def c3bk1 : Buckets := (c3bk0.try_insert 0 1).getD c3bk0

/-- After `try_insert(0, 2)`: bucket 0 holds the slots `[1, 2]`. -/
def c3bk2 : Buckets := (c3bk1.try_insert 0 2).getD c3bk1

/-- After `remove_fingerprint(0, 1)`: bucket 0 holds the slots `[0, 2]` —
a zero slot followed by a non-zero slot. -/
def c3bk : Buckets := (c3bk2.remove_fingerprint 0 1).getD c3bk2

/-- A 4-bucket `CuckooFilter` (4-bit fingerprints, 1 entry per bucket)
holding one zero-fingerprint item, recorded in the exceptional list. -/
def c2cf : CuckooFilter :=
  (CuckooFilter.insertCF hashZero (CuckooFilter.newT 4 1 4 8) ⟨[]⟩ 2).1

/-- A 4-bucket `CuckooFilter` (4-bit fingerprints, 2 entries per bucket)
holding one normally-placed item with fingerprint 5. -/
def c4cf : CuckooFilter :=
  (CuckooFilter.insertCF hashZero (CuckooFilter.newT 4 2 8 8) ⟨[]⟩ hashA).1

/-- An empty 4-bucket `CuckooFilter` (4-bit fingerprints, 2 entries per bucket). -/
def c5cf : CuckooFilter := CuckooFilter.newT 4 2 8 8

/-- Freshly built scalable filter: capacity 8, 2 entries per bucket,
one 4-bucket `CuckooFilter`. -/
def scfStart : SCF :=
  (scfFinishOpt fpWidth4 8 2 8 ⟨[]⟩).getD
    { filters := [], initial_capacity := 0, entries_per_bucket := 0, max_kicks := 0, rng := ⟨[]⟩ }

/-- After inserting the items hashed to `hashA` and `hashB` (both land in
bucket 1 of the single filter). -/
def scfTwo : SCF := scfInsert fpWidth4 hashZero (scfInsert fpWidth4 hashZero scfStart hashA) hashB

/-- After removing the `hashA` item: bucket 1 now holds `[0, 9]` — a hole
before a live slot. -/
def scfAfterRemove : SCF := (scfRemove hashZero scfTwo hashA).2

/-- After `shrink_to_fit`: the iterator skipped bucket 1 at its zero slot,
so nothing was replayed into the shrunk filter. -/
def scfShrunk : SCF := scfShrink hashZero scfAfterRemove

/-- Scalable filter whose single one-slot bucket is full and whose
`max_kicks` is 0, so the next insert reaches the eviction path and
consumes one rng draw. -/
def c9full : SCF :=
  let bk : Buckets := ⟨4, 1, 4, 0, [1]⟩
  let cf : CuckooFilter := ⟨bk, 0, [], 1⟩
  ⟨[cf], 1, 1, 0, ⟨[7]⟩⟩

/-- `scfTwo` with a non-empty rng stream, to observe that `remove` leaves it
untouched. -/
def c9removeState : SCF := { scfTwo with rng := ⟨[7]⟩ }

/-- C8: for every `Buckets`, every `i0` below the bucket count
`2 ^ bucket_index_bitwidth`, and every re-hash value `h` of the
fingerprint, the alternate-index map is an involution:
`index(index(i0 XOR h) XOR h) = i0`, so an entry stored under either
candidate index is findable starting from the other. -/
theorem buckets_alternate_index_involution (bk : Buckets) (i0 h : Nat)
    (hi : i0 < 2 ^ bk.bucket_index_bitwidth) :
    bk.index (bk.index (i0 ^^^ h) ^^^ h) = i0 := by
  unfold Buckets.index
  apply Nat.eq_of_testBit_eq
  intro j
  by_cases hj : j < bk.bucket_index_bitwidth
  · simp [Nat.testBit_and, Nat.testBit_xor, Nat.one_shiftLeft,
      Nat.testBit_two_pow_sub_one, hj]
  · have hij : Nat.testBit i0 j = false := by
      apply Nat.testBit_lt_two_pow
      exact lt_of_lt_of_le hi (Nat.pow_le_pow_right (by norm_num) (le_of_not_lt hj))
    simp [Nat.testBit_and, Nat.testBit_xor, Nat.one_shiftLeft,
      Nat.testBit_two_pow_sub_one, hj, hij]

/-- Witness for C8 at a concrete 8-bucket `Buckets`, `i0 = 5`, `h = 12`. -/
theorem buckets_alternate_index_involution_witness :
    Buckets.index ⟨4, 2, 8, 3, []⟩ (Buckets.index ⟨4, 2, 8, 3, []⟩ (5 ^^^ 12) ^^^ 12) = 5 :=
  buckets_alternate_index_involution ⟨4, 2, 8, 3, []⟩ 5 12 (by decide)

/-- C10: building through the builder with `entries_per_bucket = 0` hits the
division-by-zero panic in `CuckooFilter::new` (`none` here); for every
`entries_per_bucket ≥ 1` construction succeeds for every initial capacity,
and initial capacity 0 yields a single filter with exactly one bucket. -/
theorem builder_zero_entries_panics_otherwise_succeeds (fpWidth : Nat → Nat)
    (ic epb kicks : Nat) (rng : Rng) (h : 0 < epb) :
    scfFinishOpt fpWidth ic 0 kicks rng = none ∧
    (scfFinishOpt fpWidth ic epb kicks rng).isSome = true ∧
    Option.map (fun s => s.filters.map fun f => f.buckets.len)
      (scfFinishOpt fpWidth 0 epb kicks rng) = some [1] := by
  refine ⟨rfl, ?_, ?_⟩
  · simp [scfFinishOpt, CuckooFilter.newOpt, divCeilOpt, Nat.pos_iff_ne_zero.mp h]
  · have hhint : divCeilT 0 epb = 0 := by
      unfold divCeilT
      rw [Nat.zero_add]
      exact Nat.div_eq_of_lt (by omega)
    simp [scfFinishOpt, CuckooFilter.newOpt, divCeilOpt, Nat.pos_iff_ne_zero.mp h,
      CuckooFilter.newT, hhint, Buckets.new, Buckets.len, ceilLog2]
    decide

/-- Witness for C10 at `entries_per_bucket = 1`, capacity 0. -/
theorem builder_zero_entries_panics_otherwise_succeeds_witness :
    scfFinishOpt fpWidth4 0 0 8 ⟨[]⟩ = none ∧
    (scfFinishOpt fpWidth4 0 1 8 ⟨[]⟩).isSome = true ∧
    Option.map (fun s => s.filters.map fun f => f.buckets.len)
      (scfFinishOpt fpWidth4 0 1 8 ⟨[]⟩) = some [1] :=
  builder_zero_entries_panics_otherwise_succeeds fpWidth4 0 1 8 ⟨[]⟩ (by decide)

/-- C1 (failing input): in a freshly built 8-capacity scalable filter, insert
the items hashed to `hashA` and `hashB` (same primary bucket), remove the
`hashA` item (`hashB` is never removed), then `shrink_to_fit`: `contains`
now reports `false` for the still-inserted `hashB` item — a false negative,
because the bucket iterator skipped the live slot behind the removal hole. -/
theorem scf_false_negative_after_remove_and_shrink :
    scfContains hashZero scfTwo hashB = true ∧
    (scfRemove hashZero scfTwo hashA).1 = true ∧
    scfContains hashZero scfShrunk hashB = false := by decide

/-- C2 (failing input): a `CuckooFilter` holding one zero-fingerprint item
(recorded in `ExceptionalItems`) reports it before `shrink_to_fit` and no
longer reports it afterwards: the rebuild replays only the bucket iterator
and drops the old exceptional list. -/
theorem cuckoo_shrink_drops_exceptional_item :
    CuckooFilter.containsCF hashZero c2cf 2 = true ∧
    CuckooFilter.containsCF hashZero
      (CuckooFilter.shrink_to_fit hashZero c2cf ⟨[]⟩).1 2 = false := by decide

/-- C4 (failing input): removing a never-inserted item whose fingerprint is 0
takes the bucket path of `CuckooFilter::remove`: the exceptional-items lookup
misses, so `Buckets::contains(i0, 0)` is evaluated with fingerprint 0 (the
`debug_assert_ne!(fingerprint, 0)` condition is violated), matches an empty
slot, and the removal "succeeds". -/
theorem remove_passes_zero_fingerprint_to_buckets :
    Buckets.fingerprint c4cf.buckets 3 = 0 ∧
    Buckets.index c4cf.buckets 3 = 3 ∧
    eiContains c4cf.exceptional_items 3 3 0 = false ∧
    Buckets.contains c4cf.buckets 3 0 = true ∧
    (CuckooFilter.removeCF hashZero c4cf 3).1 = true := by decide

/-- C5 (failing input): on an empty `CuckooFilter`, removing a never-inserted
item with fingerprint 0 returns `true` (an empty slot compares equal to the
zero fingerprint), instead of the claimed `false` on a miss; `item_count` is
then decremented from 0 (a `usize` underflow in the source). -/
theorem remove_zero_fingerprint_miss_returns_true :
    CuckooFilter.lenCF c5cf = 0 ∧
    eiContains c5cf.exceptional_items 2 2 0 = false ∧
    (CuckooFilter.removeCF hashZero c5cf 2).1 = true := by decide

/-- C6 (failing input): in the `scfAfterRemove` state (two successful inserts,
one successful remove, so `len() = 1`), `shrink_to_fit` changes `len()` to 0:
the rebuilt filter counts only the replayed entries and the iterator skipped
the live slot behind the removal hole. -/
theorem scf_len_changes_across_shrink :
    scfLen scfAfterRemove = 1 ∧
    scfLen (scfShrink hashZero scfAfterRemove) = 0 := by decide

/-- C9 (counterexample): a `remove` call that actually removes an entry still
leaves the rng untouched — `ScalableCuckooFilter::remove` never draws from
the rng, contradicting the claim that it mutates the rng. -/
theorem scf_remove_leaves_rng_unchanged_concrete :
    (scfRemove hashZero c9removeState hashA).1 = true ∧
    ((scfRemove hashZero c9removeState hashA).2).rng = c9removeState.rng := by decide

/-- C9 (amended): `contains` takes the filter immutably and mutates nothing;
`remove` never mutates the rng either (for every state and item); `insert`
and `shrink_to_fit` can mutate the rng — `insert` consumes a draw whenever
it reaches the eviction path, as the concrete `c9full` run shows. -/
theorem scf_rng_mutation_profile :
    (∀ (hashFp : Nat → Nat) (s : SCF) (item_hash : Nat),
      ((scfRemove hashFp s item_hash).2).rng = s.rng) ∧
    (scfInsert fpWidth4 hashZero c9full (2 * 2 ^ 60)).rng.seq = [] ∧
    c9full.rng.seq = [7] := by
  refine ⟨fun _ _ _ => rfl, ?_, rfl⟩
  decide

theorem iterGo_succ (bk : Buckets) (fuel bi ei : Nat) :
    iterGo bk (fuel + 1) bi ei =
      if bk.len ≤ bi then []
      else if bk.entries_per_bucket ≤ ei then iterGo bk fuel (bi + 1) 0
      else if bk.get_fingerprint bi ei = 0 then iterGo bk fuel (bi + 1) 0
      else (bi, bk.get_fingerprint bi ei) :: iterGo bk fuel bi (ei + 1) := rfl

theorem bucketRowFrom_zero (bk : Buckets) (bi : Nat) :
    bucketRowFrom bk bi 0 = bucketRow bk bi := by
  simp [bucketRowFrom, bucketRow, List.range_eq_range']

theorem iterFrom_unfold (bk : Buckets) (bi : Nat) :
    iterFrom bk bi =
      if bk.len ≤ bi then []
      else ((bucketRow bk bi).map fun f => (bi, f)) ++ iterFrom bk (bi + 1) := by
  by_cases h : bk.len ≤ bi
  · simp [iterFrom, Nat.sub_eq_zero_of_le h, h]
  · have h2 : bk.len - bi = (bk.len - (bi + 1)) + 1 := by omega
    rw [iterFrom, h2, List.range'_succ]
    simp [h, iterFrom]

theorem iterGo_spec (bk : Buckets) : ∀ (fuel bucket_i entry_i : Nat),
    (bk.len - bucket_i) * (bk.entries_per_bucket + 1) +
      (bk.entries_per_bucket - entry_i) < fuel →
    entry_i ≤ bk.entries_per_bucket →
    iterGo bk fuel bucket_i entry_i =
      if bk.len ≤ bucket_i then []
      else ((bucketRowFrom bk bucket_i entry_i).map fun f => (bucket_i, f)) ++
        iterFrom bk (bucket_i + 1) := by
  intro fuel
  induction fuel with
  | zero => intro bi ei h _; omega
  | succ fuel ih =>
    intro bi ei hfuel hei
    by_cases hbi : bk.len ≤ bi
    · simp [iterGo_succ, hbi]
    · have hexp : (bk.len - bi) * (bk.entries_per_bucket + 1) =
          (bk.len - (bi + 1)) * (bk.entries_per_bucket + 1) + (bk.entries_per_bucket + 1) := by
        have h3 : bk.len - bi = (bk.len - (bi + 1)) + 1 := by omega
        rw [h3, Nat.add_mul, Nat.one_mul]
      by_cases hent : bk.entries_per_bucket ≤ ei
      · have hrow : bucketRowFrom bk bi ei = [] := by
          unfold bucketRowFrom
          rw [Nat.sub_eq_zero_of_le hent]
          rfl
        have hf2 : (bk.len - (bi + 1)) * (bk.entries_per_bucket + 1) +
            (bk.entries_per_bucket - 0) < fuel := by
          rw [hexp] at hfuel
          omega
        rw [iterGo_succ, if_neg hbi, if_pos hent, hrow,
          ih (bi + 1) 0 hf2 (Nat.zero_le _), iterFrom_unfold bk (bi + 1), bucketRowFrom_zero]
        simp [hbi]
      · by_cases hf : bk.get_fingerprint bi ei = 0
        · have hrow : bucketRowFrom bk bi ei = [] := by
            unfold bucketRowFrom
            have h4 : bk.entries_per_bucket - ei = (bk.entries_per_bucket - (ei + 1)) + 1 := by
              omega
            rw [h4, List.range'_succ]
            simp [hf]
          have hf2 : (bk.len - (bi + 1)) * (bk.entries_per_bucket + 1) +
              (bk.entries_per_bucket - 0) < fuel := by
            rw [hexp] at hfuel
            omega
          rw [iterGo_succ, if_neg hbi, if_neg hent, if_pos hf, hrow,
            ih (bi + 1) 0 hf2 (Nat.zero_le _), iterFrom_unfold bk (bi + 1), bucketRowFrom_zero]
          simp [hbi]
        · have hrow : bucketRowFrom bk bi ei =
              bk.get_fingerprint bi ei :: bucketRowFrom bk bi (ei + 1) := by
            unfold bucketRowFrom
            have h4 : bk.entries_per_bucket - ei = (bk.entries_per_bucket - (ei + 1)) + 1 := by
              omega
            rw [h4, List.range'_succ]
            simp [hf]
          have hf3 : (bk.len - bi) * (bk.entries_per_bucket + 1) +
              (bk.entries_per_bucket - (ei + 1)) < fuel := by
            omega
          rw [iterGo_succ, if_neg hbi, if_neg hent, if_neg hf, hrow,
            ih bi (ei + 1) hf3 (by omega)]
          simp [hbi]

/-- C3 (amended): `iter()` yields, in bucket-major order, exactly the entries
of each bucket's maximal leading run of non-zero slots (`bucketRow`); a slot
sitting behind a zero slot — as produced by `remove_fingerprint` — is
skipped together with the rest of its bucket, not yielded. -/
theorem buckets_iter_yields_nonzero_runs (bk : Buckets) :
    bk.iterList = (List.range bk.len).flatMap fun b => (bucketRow bk b).map fun f => (b, f) := by
  have hlen : 0 < bk.len := by
    unfold Buckets.len
    rw [Nat.one_shiftLeft]
    exact Nat.two_pow_pos _
  have hfuel : (bk.len - 0) * (bk.entries_per_bucket + 1) + (bk.entries_per_bucket - 0) <
      (bk.len + 1) * (bk.entries_per_bucket + 1) := by
    have h2 : (bk.len + 1) * (bk.entries_per_bucket + 1) =
        bk.len * (bk.entries_per_bucket + 1) + (bk.entries_per_bucket + 1) := by
      rw [Nat.add_mul, Nat.one_mul]
    rw [h2, Nat.sub_zero]
    omega
  have h := iterGo_spec bk ((bk.len + 1) * (bk.entries_per_bucket + 1)) 0 0 hfuel (Nat.zero_le _)
  unfold Buckets.iterList
  rw [h, if_neg (by omega), bucketRowFrom_zero]
  have h0 := iterFrom_unfold bk 0
  rw [if_neg (by omega)] at h0
  rw [← h0]
  unfold iterFrom
  rw [Nat.sub_zero, ← List.range_eq_range']

/-- C3 (counterexample): in a reachable `Buckets` state whose only bucket
holds the slots `[0, 2]` (after `try_insert(0,1)`, `try_insert(0,2)`,
`remove_fingerprint(0,1)`), `iter()` yields nothing at all even though slot 1
holds the non-zero fingerprint 2 — refuting the claim that every non-zero
slot is yielded. -/
theorem iter_skips_nonzero_slot_after_hole :
    c3bk.iterList = [] ∧ c3bk.get_fingerprint 0 1 = 2 ∧
    c3bk.entries_per_bucket = 2 ∧ c3bk.len = 1 := by decide

theorem streamBit_cons_lt (b : Nat) (l : List Nat) (q : Nat) (h : q < 8) :
    streamBit (b :: l) q = b.testBit q := by
  unfold streamBit
  have h1 : q / 8 = 0 := by omega
  have h2 : q % 8 = q := by omega
  rw [h1, h2, List.getD_cons_zero]

theorem streamBit_cons_ge (b : Nat) (l : List Nat) (q : Nat) (h : 8 ≤ q) :
    streamBit (b :: l) q = streamBit l (q - 8) := by
  unfold streamBit
  have h1 : q / 8 = (q - 8) / 8 + 1 := by omega
  have h2 : q % 8 = (q - 8) % 8 := by omega
  rw [h1, h2, List.getD_cons_succ]

theorem b2_testBit (a size value offset j : Nat) (hoff : offset < 8)
    (hs : size + offset < 64) (hv : value < 2 ^ size) (hj : j < 8) :
    (shl64 (shr64 a (size + offset)) (size + offset) % 256 ||| shl64 value offset % 256 |||
      (a &&& ((1 <<< offset) - 1))).testBit j =
      if offset ≤ j ∧ j < offset + size then value.testBit (j - offset) else a.testBit j := by
  have hsm : (size + offset) % 64 = size + offset := Nat.mod_eq_of_lt hs
  have hom : offset % 64 = offset := Nat.mod_eq_of_lt (by omega)
  have h256 : (256 : Nat) = 2 ^ 8 := rfl
  simp only [shl64, shr64, hsm, hom, h256, Nat.testBit_or, Nat.testBit_and,
    Nat.testBit_mod_two_pow, Nat.testBit_shiftLeft, Nat.testBit_shiftRight,
    Nat.one_shiftLeft, Nat.testBit_two_pow_sub_one, ge_iff_le]
  by_cases h1 : offset ≤ j
  · by_cases h2 : j < offset + size
    · have hns : ¬ (size + offset ≤ j) := by omega
      have hnl : ¬ (j < offset) := by omega
      simp [hj, h1, h2, hns, hnl, show j < 64 from by omega]
    · have hs2 : size + offset ≤ j := by omega
      have hvt : value.testBit (j - offset) = false := by
        apply Nat.testBit_lt_two_pow
        exact lt_of_lt_of_le hv (Nat.pow_le_pow_right (by norm_num) (by omega))
      have hnl : ¬ (j < offset) := by omega
      have hrw : size + offset + (j - (size + offset)) = j := by omega
      have hcond : ¬ (offset ≤ j ∧ j < offset + size) := by omega
      simp [hj, h1, hs2, hvt, hnl, hrw, hcond, show j < 64 from by omega]
      intro _
      omega
  · have hns : ¬ (size + offset ≤ j) := by omega
    have hcond : ¬ (offset ≤ j ∧ j < offset + size) := by omega
    simp [hj, h1, hns, hcond, show j < offset from by omega, show j < 64 from by omega]

theorem setUintGo_cons (a : Nat) (rest : List Nat) (size value offset : Nat) :
    setUintGo (a :: rest) size value offset =
      if size ≤ 8 - offset then
        (shl64 (shr64 a (size + offset)) (size + offset) % 256 ||| shl64 value offset % 256 |||
          (a &&& ((1 <<< offset) - 1))) :: rest
      else
        (shl64 (shr64 a (size + offset)) (size + offset) % 256 ||| shl64 value offset % 256 |||
          (a &&& ((1 <<< offset) - 1))) ::
          setUintGo rest (size - (8 - offset)) (shr64 value (8 - offset)) 0 := rfl

theorem setUintGo_testBit : ∀ (bs : List Nat) (size value offset q : Nat),
    offset < 8 → offset + size < 64 → value < 2 ^ size →
    offset + size ≤ 8 * bs.length →
    streamBit (setUintGo bs size value offset) q =
      if offset ≤ q ∧ q < offset + size then value.testBit (q - offset)
      else streamBit bs q := by
  intro bs
  induction bs with
  | nil =>
    intro size value offset q _ _ _ hfit
    simp only [List.length_nil, Nat.mul_zero, Nat.le_zero] at hfit
    have hcond : ¬ (offset ≤ q ∧ q < offset + size) := by omega
    simp [setUintGo, hcond]
  | cons a rest ih =>
    intro size value offset q hoff hs hv hfit
    rw [setUintGo_cons]
    by_cases hbr : size ≤ 8 - offset
    · rw [if_pos hbr]
      by_cases hq : q < 8
      · rw [streamBit_cons_lt _ _ _ hq,
          b2_testBit a size value offset q hoff (by omega) hv hq]
        by_cases hcond : offset ≤ q ∧ q < offset + size
        · rw [if_pos hcond, if_pos hcond]
        · rw [if_neg hcond, if_neg hcond, streamBit_cons_lt _ _ _ hq]
      · have hq8 : 8 ≤ q := by omega
        have hcond : ¬ (offset ≤ q ∧ q < offset + size) := by omega
        rw [if_neg hcond, streamBit_cons_ge _ _ _ hq8, streamBit_cons_ge _ _ _ hq8]
    · rw [if_neg hbr]
      by_cases hq : q < 8
      · rw [streamBit_cons_lt _ _ _ hq,
          b2_testBit a size value offset q hoff (by omega) hv hq]
        by_cases hcond : offset ≤ q ∧ q < offset + size
        · rw [if_pos hcond, if_pos hcond]
        · rw [if_neg hcond, if_neg hcond, streamBit_cons_lt _ _ _ hq]
      · have hq8 : 8 ≤ q := by omega
        rw [streamBit_cons_ge _ _ _ hq8]
        have hd : (8 - offset) % 64 = 8 - offset := Nat.mod_eq_of_lt (by omega)
        have hv2 : shr64 value (8 - offset) < 2 ^ (size - (8 - offset)) := by
          unfold shr64
          rw [hd, Nat.shiftRight_eq_div_pow]
          have hp : 0 < 2 ^ (8 - offset) := Nat.two_pow_pos _
          rw [Nat.div_lt_iff_lt_mul hp, ← Nat.pow_add]
          have he : size - (8 - offset) + (8 - offset) = size := by omega
          rw [he]
          exact hv
        have hfit2 : 0 + (size - (8 - offset)) ≤ 8 * rest.length := by
          simp only [List.length_cons] at hfit
          omega
        rw [ih (size - (8 - offset)) (shr64 value (8 - offset)) 0 (q - 8) (by omega)
          (by omega) hv2 hfit2]
        by_cases hcond : offset ≤ q ∧ q < offset + size
        · have hcond2 : 0 ≤ q - 8 ∧ q - 8 < 0 + (size - (8 - offset)) := by omega
          rw [if_pos hcond2, if_pos hcond]
          unfold shr64
          rw [hd, Nat.testBit_shiftRight]
          have he : 8 - offset + (q - 8 - 0) = q - offset := by omega
          rw [he]
        · have hcond2 : ¬ (0 ≤ q - 8 ∧ q - 8 < 0 + (size - (8 - offset))) := by omega
          rw [if_neg hcond2, if_neg hcond, streamBit_cons_ge _ _ _ hq8]

theorem orBytes_testBit : ∀ (chunk : List Nat) (i m : Nat), (∀ b ∈ chunk, b < 256) →
    8 * (i + chunk.length) ≤ 64 →
    (orBytes chunk i).testBit m =
      (decide (8 * i ≤ m) && (chunk.getD (m / 8 - i) 0).testBit (m % 8)) := by
  intro chunk
  induction chunk with
  | nil =>
    intro i m _ _
    simp [orBytes, Nat.zero_testBit]
  | cons b rest ih =>
    intro i m hb hlen
    have hblt : b < 256 := hb b (List.mem_cons_self _ _)
    have hlen2 : 8 * (i + 1 + rest.length) ≤ 64 := by
      simp only [List.length_cons] at hlen
      omega
    have h64 : 8 * i % 64 = 8 * i := Nat.mod_eq_of_lt (by omega)
    have hsh : shl64 b (8 * i) = b <<< (8 * i) := by
      unfold shl64
      rw [h64]
      apply Nat.mod_eq_of_lt
      calc b <<< (8 * i) = b * 2 ^ (8 * i) := Nat.shiftLeft_eq b (8 * i)
        _ < 256 * 2 ^ (8 * i) := by
            exact (Nat.mul_lt_mul_right (Nat.two_pow_pos _)).mpr hblt
        _ = 2 ^ (8 + 8 * i) := by rw [Nat.pow_add]
        _ ≤ 2 ^ 64 := Nat.pow_le_pow_right (by norm_num) (by omega)
    rw [orBytes, Nat.testBit_or, hsh, Nat.testBit_shiftLeft,
      ih (i + 1) m (fun x hx => hb x (List.mem_cons_of_mem _ hx)) hlen2]
    by_cases hc1 : m < 8 * i
    · have d1 : ¬ (8 * i ≤ m) := by omega
      have d2 : ¬ (8 * (i + 1) ≤ m) := by omega
      simp [d1, d2, ge_iff_le]
    · by_cases hc2 : m < 8 * i + 8
      · have d1 : 8 * i ≤ m := by omega
        have d2 : ¬ (8 * (i + 1) ≤ m) := by omega
        have d3 : m / 8 - i = 0 := by omega
        have d4 : m - 8 * i = m % 8 := by omega
        simp [d1, d2, d3, d4, ge_iff_le]
      · have d1 : 8 * i ≤ m := by omega
        have d2 : 8 * (i + 1) ≤ m := by omega
        have d5 : b.testBit (m - 8 * i) = false := by
          apply Nat.testBit_lt_two_pow
          calc b < 2 ^ 8 := by norm_num [hblt]
            _ ≤ 2 ^ (m - 8 * i) := Nat.pow_le_pow_right (by norm_num) (by omega)
        have d6 : m / 8 - i = (m / 8 - (i + 1)) + 1 := by omega
        rw [d6]
        simp [d1, d2, d5, ge_iff_le]

theorem get_uint_testBit (bs : List Nat) (p w : Nat) (hb : ∀ b ∈ bs, b < 256)
    (hw : p % 8 + w < 64) (j : Nat) :
    (Bits.get_uint bs p w).testBit j = (decide (j < w) && streamBit bs (p + j)) := by
  have h64 : w % 64 = w := Nat.mod_eq_of_lt (by omega)
  have hmask : shl64 1 w - 1 = 2 ^ w - 1 := by
    unfold shl64
    rw [h64, Nat.one_shiftLeft,
      Nat.mod_eq_of_lt (Nat.pow_lt_pow_right (by norm_num) (by omega))]
  simp only [Bits.get_uint, hmask, Nat.testBit_and, Nat.testBit_shiftRight,
    Nat.testBit_two_pow_sub_one]
  by_cases hj : j < w
  · have hchunk : ∀ b ∈ (bs.drop (p / 8)).take (divCeilT (p + w) 8 - p / 8), b < 256 :=
      fun b hbm => hb b (List.mem_of_mem_drop (List.mem_of_mem_take hbm))
    have hcl : 8 * (0 + ((bs.drop (p / 8)).take (divCeilT (p + w) 8 - p / 8)).length) ≤ 64 := by
      have h1 : ((bs.drop (p / 8)).take (divCeilT (p + w) 8 - p / 8)).length ≤
          divCeilT (p + w) 8 - p / 8 := List.length_take_le _ _
      have h2 : divCeilT (p + w) 8 - p / 8 ≤ 8 := by
        unfold divCeilT
        omega
      omega
    rw [orBytes_testBit _ 0 (p % 8 + j) hchunk hcl]
    have hk : (p % 8 + j) / 8 - 0 < divCeilT (p + w) 8 - p / 8 := by
      unfold divCeilT
      omega
    have hgd : ((bs.drop (p / 8)).take (divCeilT (p + w) 8 - p / 8)).getD
        ((p % 8 + j) / 8 - 0) 0 = bs.getD ((p + j) / 8) 0 := by
      rw [List.getD_eq_getElem?_getD, List.getD_eq_getElem?_getD,
        List.getElem?_take_of_lt hk, List.getElem?_drop]
      have he : p / 8 + ((p % 8 + j) / 8 - 0) = (p + j) / 8 := by omega
      rw [he]
    rw [hgd]
    unfold streamBit
    have hm : (p % 8 + j) % 8 = (p + j) % 8 := by omega
    simp [hj, hm]
  · simp [hj]

theorem setUintGo_mem_lt : ∀ (bs : List Nat) (size value offset : Nat),
    (∀ b ∈ bs, b < 256) → ∀ b ∈ setUintGo bs size value offset, b < 256 := by
  intro bs
  induction bs with
  | nil => intro size value offset _ b hbm; simp [setUintGo] at hbm
  | cons a rest ih =>
    intro size value offset h b hbm
    have hb2 : (shl64 (shr64 a (size + offset)) (size + offset) % 256 |||
        shl64 value offset % 256 ||| (a &&& ((1 <<< offset) - 1))) < 256 := by
      have h256 : (256 : Nat) = 2 ^ 8 := rfl
      rw [h256]
      apply Nat.or_lt_two_pow
      · apply Nat.or_lt_two_pow
        · rw [← h256]; exact Nat.mod_lt _ (by norm_num)
        · rw [← h256]; exact Nat.mod_lt _ (by norm_num)
      · exact lt_of_le_of_lt Nat.and_le_left (h256 ▸ h a (List.mem_cons_self _ _))
    rw [setUintGo_cons] at hbm
    by_cases hbr : size ≤ 8 - offset
    · rw [if_pos hbr] at hbm
      rcases List.mem_cons.mp hbm with h1 | h1
      · rw [h1]; exact hb2
      · exact h b (List.mem_cons_of_mem _ h1)
    · rw [if_neg hbr] at hbm
      rcases List.mem_cons.mp hbm with h1 | h1
      · rw [h1]; exact hb2
      · exact ih _ _ _ (fun x hx => h x (List.mem_cons_of_mem _ hx)) b h1

theorem set_uint_mem_lt (bs : List Nat) (p w v : Nat) (hb : ∀ b ∈ bs, b < 256) :
    ∀ b ∈ Bits.set_uint bs p w v, b < 256 := by
  intro b hbm
  unfold Bits.set_uint at hbm
  rcases List.mem_append.mp hbm with h1 | h1
  · exact hb b (List.mem_of_mem_take h1)
  · exact setUintGo_mem_lt _ _ _ _ (fun x hx => hb x (List.mem_of_mem_drop hx)) b h1

theorem set_uint_streamBit (bs : List Nat) (p w v q : Nat)
    (hw : p % 8 + w < 64) (hlen : p + w ≤ 8 * bs.length) (hv : v < 2 ^ w) :
    streamBit (Bits.set_uint bs p w v) q =
      if p ≤ q ∧ q < p + w then v.testBit (q - p) else streamBit bs q := by
  unfold Bits.set_uint
  have hstart : p / 8 ≤ bs.length := by omega
  have htl : (bs.take (p / 8)).length = p / 8 := by
    rw [List.length_take]
    omega
  by_cases hq : q < 8 * (p / 8)
  · have h1 : streamBit (bs.take (p / 8) ++ setUintGo (bs.drop (p / 8)) w v (p % 8)) q
        = streamBit bs q := by
      unfold streamBit
      rw [List.getD_eq_getElem?_getD, List.getD_eq_getElem?_getD,
        List.getElem?_append_left (by rw [htl]; omega),
        List.getElem?_take_of_lt (by omega)]
    rw [h1, if_neg (by omega)]
  · have hq8 : 8 * (p / 8) ≤ q := by omega
    have h1 : streamBit (bs.take (p / 8) ++ setUintGo (bs.drop (p / 8)) w v (p % 8)) q
        = streamBit (setUintGo (bs.drop (p / 8)) w v (p % 8)) (q - 8 * (p / 8)) := by
      unfold streamBit
      rw [List.getD_eq_getElem?_getD, List.getD_eq_getElem?_getD,
        List.getElem?_append_right (by rw [htl]; omega), htl]
      have hd1 : q / 8 - p / 8 = (q - 8 * (p / 8)) / 8 := by omega
      have hd2 : q % 8 = (q - 8 * (p / 8)) % 8 := by omega
      rw [hd1, hd2]
    rw [h1, setUintGo_testBit (bs.drop (p / 8)) w v (p % 8) (q - 8 * (p / 8)) (by omega)
      hw hv (by rw [List.length_drop]; omega)]
    by_cases hcond : p ≤ q ∧ q < p + w
    · have hcond2 : p % 8 ≤ q - 8 * (p / 8) ∧ q - 8 * (p / 8) < p % 8 + w := by omega
      rw [if_pos hcond2, if_pos hcond]
      have he : q - 8 * (p / 8) - p % 8 = q - p := by omega
      rw [he]
    · have hcond2 : ¬ (p % 8 ≤ q - 8 * (p / 8) ∧ q - 8 * (p / 8) < p % 8 + w) := by omega
      rw [if_neg hcond2, if_neg hcond]
      unfold streamBit
      rw [List.getD_eq_getElem?_getD, List.getD_eq_getElem?_getD, List.getElem?_drop]
      have hd1 : p / 8 + (q - 8 * (p / 8)) / 8 = q / 8 := by omega
      have hd2 : (q - 8 * (p / 8)) % 8 = q % 8 := by omega
      rw [hd1, hd2]

/-- C7 (amended): for every byte buffer, position `p` and width `w` with
`p % 8 + w < 64` and `p + w ≤ len()`, and every value `v` already masked to
`w` bits (`v < 2^w`), `get_uint(p, w)` after `set_uint(p, w, v)` returns
`v AND ((1 << w) - 1)`, and `set_uint` preserves every bit `q` of the buffer
outside `[p, p + w)`. (For unmasked `v` the writes OR stray value bits into
the current byte, and at `p % 8 + w ≥ 64` the 64-bit shift masking breaks
the operations — see the counterexample.) -/
theorem bits_set_get_roundtrip_and_frame (bits : List Nat) (p w v q : Nat)
    (hb : ∀ b ∈ bits, b < 256) (hw : p % 8 + w < 64) (hlen : p + w ≤ 8 * bits.length)
    (hv : v < 2 ^ w) (hq : q < 8 * bits.length) (hout : q < p ∨ p + w ≤ q) :
    Bits.get_uint (Bits.set_uint bits p w v) p w = v % 2 ^ w ∧
    streamBit (Bits.set_uint bits p w v) q = streamBit bits q := by
  constructor
  · apply Nat.eq_of_testBit_eq
    intro j
    rw [get_uint_testBit _ p w (set_uint_mem_lt bits p w v hb) hw j,
      set_uint_streamBit bits p w v (p + j) hw hlen hv,
      Nat.testBit_mod_two_pow]
    by_cases hj : j < w
    · have hcond : p ≤ p + j ∧ p + j < p + w := by omega
      rw [if_pos hcond]
      have he : p + j - p = j := by omega
      simp [hj, he]
    · have hcond : ¬ (p ≤ p + j ∧ p + j < p + w) := by omega
      rw [if_neg hcond]
      simp [hj]
  · rw [set_uint_streamBit bits p w v q hw hlen hv, if_neg (by omega)]

/-- Witness for C7: buffer `[0, 3]`, field at `p = 3`, `w = 5`, `v = 30`,
frame bit `q = 1`. -/
theorem bits_set_get_roundtrip_and_frame_witness :
    Bits.get_uint (Bits.set_uint [0, 3] 3 5 30) 3 5 = 30 % 2 ^ 5 ∧
    streamBit (Bits.set_uint [0, 3] 3 5 30) 1 = streamBit [0, 3] 1 :=
  bits_set_get_roundtrip_and_frame [0, 3] 3 5 30 1 (by decide) (by decide) (by decide)
    (by decide) (by decide) (by decide)

/-- C7 (counterexample): with the unmasked value `v = 2` and field
`(p, w) = (0, 1)` on a one-byte buffer, `set_uint` flips bit 1, which lies
outside `[0, 1)` — surrounding bits are not preserved for arbitrary
(unmasked) `v`; and at `w = 64` (here `p = 0` on an 8-byte buffer) the mask
`(1 << 64) - 1` collapses under 64-bit shift masking, so get-after-set
returns 0 instead of `1 AND ((1 << 64) - 1) = 1`. -/
theorem bits_set_uint_claim_refuted :
    streamBit (Bits.set_uint [0] 0 1 2) 1 = true ∧ streamBit [0] 1 = false ∧
    Bits.get_uint (Bits.set_uint (List.replicate 8 0) 0 64 1) 0 64 = 0 ∧
    1 &&& (2 ^ 64 - 1) = 1 := by decide
